import Mathlib

/-!
Verification of the omen-fan-control thermal core: a shallow embedding of the
curve engine, smoothing window, actuation governor, daemon tick, calibration
routine and sensor accessors, with theorems about their behaviour.

Numeric conventions: Python ints are `Int`, Python floats are modelled as exact
rationals `Rat` (every quantity the claims touch is exactly representable, and
the float expressions involved were checked to round to the same values),
`round` is round-half-to-even as in Python 3, `int(...)` on a float truncates
toward zero, and `//` on ints is floor division (`Int.fdiv`).
-/

namespace OmenFan

/-- A curve point `(temperature, dutyPercent)`, both Python ints. -/
abbrev Point := ℤ × ℤ

/-- Python 3 `round` on an exact rational: round half to even. -/
def pyRound (q : ℚ) : ℤ :=
  if q - (⌊q⌋ : ℚ) < 1/2 then ⌊q⌋
  else if 1/2 < q - (⌊q⌋ : ℚ) then ⌊q⌋ + 1
  else if ⌊q⌋ % 2 = 0 then ⌊q⌋ else ⌊q⌋ + 1

/-- Python `int(...)` applied to a float: truncation toward zero. -/
def pyTrunc (q : ℚ) : ℤ :=
  if 0 ≤ q then ⌊q⌋ else -⌊-q⌋

/-- `value or default` for an optional read result: Python treats `None` and
the empty string as falsy. -/
def pyOr (r : Option String) (d : String) : String :=
  match r with
  | none => d
  | some s => if s = "" then d else s

/-- Python's `str.strip()` (limited to the common whitespace characters),
written over the character list so it is kernel-computable. -/
def pyStrip (s : String) : String :=
  let ws : Char → Bool := fun c => c = ' ' ∨ c = '\t' ∨ c = '\n' ∨ c = '\r'
  ⟨((s.data.dropWhile ws).reverse.dropWhile ws).reverse⟩

/-- Decimal digit list to a natural number, `none` on a non-digit. -/
def parseDigits : List Char → ℕ → Option ℕ
  | [], acc => some acc
  | c :: cs, acc =>
    if '0' ≤ c ∧ c ≤ '9' then parseDigits cs (acc * 10 + (c.toNat - 48))
    else none

/-- Python `int(str)` on an already-stripped string: optional sign followed by
at least one decimal digit; `none` models the `ValueError` path. -/
def pyInt (s : String) : Option ℤ :=
  match s.data with
  | [] => none
  | '-' :: ds => if ds = [] then none else (parseDigits ds 0).map (fun n => -(n : ℤ))
  | '+' :: ds => if ds = [] then none else (parseDigits ds 0).map (fun n => (n : ℤ))
  | ds => (parseDigits ds 0).map (fun n => (n : ℤ))

/-! ## CurveEngine: `FanController.calculate_target_pwm` -/

/-- Value of one bracketing segment, from the interior of
`FanController.calculate_target_pwm`: `discrete` takes the lower point's duty,
anything else interpolates linearly, with the degenerate-denominator guard. -/
def segValue (interp : String) (t : ℚ) (p1 p2 : Point) : ℚ :=
  if interp = "discrete" then (p1.2 : ℚ)
  else if p2.1 - p1.1 = 0 then (p2.2 : ℚ)
  else (p1.2 : ℚ) + (t - (p1.1 : ℚ)) / ((p2.1 : ℚ) - (p1.1 : ℚ)) * ((p2.2 : ℚ) - (p1.2 : ℚ))

/-- The pairwise scan over consecutive points: the first segment with
`p1.temp <= t <= p2.temp` wins (the `for`/`break` loop of
`calculate_target_pwm`). -/
def scanSeg (interp : String) (t : ℚ) : List Point → Option ℚ
  | p1 :: p2 :: rest =>
    if (p1.1 : ℚ) ≤ t ∧ t ≤ (p2.1 : ℚ) then some (segValue interp t p1 p2)
    else scanSeg interp t (p2 :: rest)
  | _ => none

/-- `sorted(curve, key=lambda p: p[0])`: a stable sort by temperature.
Insertion sort with `<=` on the keys is stable, like Python's `sorted`. -/
def sortCurve (curve : List Point) : List Point :=
  List.insertionSort (fun p q : Point => p.1 ≤ q.1) curve

/-- Last element of the nonempty list `p :: ps` (Python's `curve[-1]`). -/
def lastPt (p : Point) (ps : List Point) : Point := ps.getLastD p

/-- Body of `calculate_target_pwm` on a nonempty (already sorted) curve
`p :: ps`: low clamp, high clamp, then the pairwise scan (whose default
accumulator is `0`). -/
def clampedValue (interp : String) (t : ℚ) (p : Point) (ps : List Point) : ℚ :=
  if t ≤ (p.1 : ℚ) then (p.2 : ℚ)
  else if ((lastPt p ps).1 : ℚ) ≤ t then ((lastPt p ps).2 : ℚ)
  else (scanSeg interp t (p :: ps)).getD 0

/-- The duty percentage computed by `FanController.calculate_target_pwm`
before conversion to a PWM unit; `none` iff the curve is empty. -/
def targetPercent (curve : List Point) (interp : String) (t : ℚ) : Option ℚ :=
  match sortCurve curve with
  | [] => none
  | p :: ps => some (clampedValue interp t p ps)

/-- `FanController.calculate_target_pwm`: duty percent mapped through
`int(round(percent / 100 * 255))`. -/
def calculate_target_pwm (curve : List Point) (interp : String) (t : ℚ) : Option ℤ :=
  (targetPercent curve interp t).map (fun pct => pyRound (pct / 100 * 255))

/-- The PWM value with the (never exercised on a nonempty curve) default `0`,
for stating order properties. -/
def pwmAt (curve : List Point) (interp : String) (t : ℚ) : ℤ :=
  (calculate_target_pwm curve interp t).getD 0

/-! ## Daemon state, events, governor, tick (`serve` in omen_cli.py) -/

/-- The configuration fields the control core consumes, as loaded per tick. -/
structure Config where
  mode : String
  ma_window : ℤ
  curve : List Point
  curve_interpolation : String
  manual_pwm : ℤ
  fan_max : ℤ
  calibration_wait : ℚ
deriving DecidableEq

/-- Daemon loop state that survives between ticks. -/
structure DaemonState where
  temp_history : List ℤ
  hyst : Option ℚ
deriving DecidableEq

/-- External observations a tick makes: the wall clock and what the sensor
files would return this tick. -/
structure Env where
  now : ℚ
  tempR : ℤ
  fanR : ℤ
  enableR : Option String
deriving DecidableEq

/-- Observable hardware/config effects, in program order. -/
inductive Ev where
  | sleep (secs : ℚ)
  | readTemp
  | readFan
  | readEnable
  | readPwm
  | writeEnable (v : String)
  | writePwm (v : String)
  | saveConfig
  | progress (v : ℤ)
deriving DecidableEq

/-- An actuator write: to `pwm1_enable` or to `pwm1`. -/
def isActuatorWrite : Ev → Bool
  | .writeEnable _ => true
  | .writePwm _ => true
  | _ => false

/-- `FanController.set_fan_mode`: `max` writes enable `0`, `auto` writes `2`,
anything else writes nothing. -/
def set_fan_mode (mode : String) : List Ev :=
  if mode = "max" then [Ev.writeEnable "0"]
  else if mode = "auto" then [Ev.writeEnable "2"]
  else []

/-- `FanController.set_fan_pwm`: read the enable file, switch to manual (`1`)
unless already there, then write the duty value. -/
def set_fan_pwm (enableR : Option String) (value : ℤ) : List Ev :=
  Ev.readEnable ::
    (if enableR = some "1" then [] else [Ev.writeEnable "1"]) ++ [Ev.writePwm (toString value)]

/-- One smoothing-window push of `serve`: append the fresh sample, then pop
the single oldest entry if the window is exceeded. -/
def smootherPush (w : ℤ) (hist : List ℤ) (t : ℤ) : List ℤ :=
  let h1 := hist ++ [t]
  if (h1.length : ℤ) > w then h1.tail else h1

/-- `sum(temp_history) / len(temp_history)`. -/
def histAvg (hist : List ℤ) : ℚ :=
  ((hist.map (fun n => (n : ℚ))).sum) / (hist.length : ℚ)

/-- The hysteresis decision of `serve`'s curve branch: returns whether to
write, together with the value `hysteresis_start_time` holds after the tick
(the write path resets it to `None`). -/
def govStep (fan_max pwm fanR : ℤ) (now : ℚ) (h : Option ℚ) : Bool × Option ℚ :=
  if 0 < fan_max then
    let diff := |(pwm : ℚ) / 255 * (fan_max : ℚ) - (fanR : ℚ)|
    if diff ≤ 200 then
      let h0 := h.getD now
      if 60 < now - h0 then (true, none) else (false, some h0)
    else (true, none)
  else (true, none)

/-- One iteration of the `while True` loop of `serve` (omen_cli.py), after the
config has been reloaded into `cfg`: calibration idles, every other mode
pushes the temperature sample, and the mode dispatch decides the writes. -/
def serveTick (cfg : Config) (st : DaemonState) (env : Env) : DaemonState × List Ev :=
  if cfg.mode = "calibration" then (st, [Ev.sleep 1])
  else
    let hist := smootherPush cfg.ma_window st.temp_history env.tempR
    let avg := histAvg hist
    if cfg.mode = "curve" then
      match calculate_target_pwm cfg.curve cfg.curve_interpolation avg with
      | none => ({ temp_history := hist, hyst := st.hyst }, [Ev.readTemp, Ev.sleep 2])
      | some pwm =>
        let g := govStep cfg.fan_max pwm env.fanR env.now st.hyst
        ({ temp_history := hist, hyst := g.2 },
          [Ev.readTemp, Ev.readFan]
            ++ (if g.1 then set_fan_pwm env.enableR pwm else []) ++ [Ev.sleep 2])
    else if cfg.mode = "manual" then
      if 0 ≤ cfg.manual_pwm then
        ({ temp_history := hist, hyst := st.hyst },
          Ev.readTemp :: set_fan_pwm env.enableR cfg.manual_pwm ++ [Ev.sleep 2])
      else ({ temp_history := hist, hyst := st.hyst }, [Ev.readTemp, Ev.sleep 2])
    else if cfg.mode = "max" then
      ({ temp_history := hist, hyst := st.hyst }, Ev.readTemp :: set_fan_mode "max" ++ [Ev.sleep 2])
    else if cfg.mode = "auto" then
      ({ temp_history := hist, hyst := st.hyst }, Ev.readTemp :: set_fan_mode "auto" ++ [Ev.sleep 2])
    else
      ({ temp_history := hist, hyst := st.hyst }, [Ev.readTemp, Ev.sleep 2])

/-! ## CalibrationRoutine: `FanController.calibrate` -/

/-- The ten sleep-then-yield steps of `calibrate`:
`time.sleep(wait_time / steps)` then `yield int((i + 1) / steps * 100)`. -/
def calibLoop (wait : ℚ) : List Ev :=
  ((List.range 10).map fun i =>
    [Ev.sleep (wait / 10), Ev.progress (pyTrunc (((i : ℚ) + 1) / 10 * 100))]).flatten

/-- The restoration tail of `calibrate`: re-write the snapshotted enable mode,
and re-write the previous duty only if the snapshot was manual (`"1"`). -/
def calibRestore (prev_enable prev_pwm : String) : List Ev :=
  (if prev_enable = "" then [] else [Ev.writeEnable prev_enable])
    ++ (if prev_pwm ≠ "" ∧ pyStrip prev_enable = "1" then [Ev.writePwm prev_pwm] else [])

/-- `FanController.calibrate` as a trace transformer: inputs are the wait time
from config, the two snapshot reads, and what the fan sensor will report at
the end; output is the event trace, the returned `max_rpm`, and the mutated
config. Restoration failures only print, so they do not affect any output. -/
def calibrate (wait : ℚ) (prevEnableR prevPwmR : Option String) (fanR : ℤ) (cfg : Config) :
    List Ev × ℤ × Config :=
  let prev_enable := pyOr prevEnableR "2"
  let prev_pwm := pyOr prevPwmR "0"
  ([Ev.readEnable, Ev.readPwm] ++ set_fan_mode "max" ++ calibLoop wait
      ++ [Ev.readFan, Ev.saveConfig] ++ calibRestore prev_enable prev_pwm,
    fanR, { cfg with fan_max := fanR })

/-! ## Sensor accessors: `read_sys_file`, `get_fan_speed`, `get_cpu_temp` -/

/-- What the file behind a sysfs path can look like to a reader. -/
inductive FileRes where
  | absent
  | unreadable
  | content (s : String)
deriving DecidableEq

/-- `FanController.read_sys_file`: `None` path, missing file and read errors
all collapse to `None`; a successful read is stripped. -/
def read_sys_file : Option FileRes → Option String
  | none => none
  | some .absent => none
  | some .unreadable => none
  | some (.content s) => some (pyStrip s)

/-- `FanController.get_fan_speed`: `int(val) if val else 0`; a non-numeric
read raises `ValueError`, modelled as `Except.error`. -/
def get_fan_speed (p : Option FileRes) : Except Unit ℤ :=
  match read_sys_file p with
  | none => .ok 0
  | some s =>
    if s = "" then .ok 0
    else match pyInt s with
      | some n => .ok n
      | none => .error ()

/-- `FanController.get_cpu_temp`: `0` when the temp path is `None` or the read
fails, otherwise the millidegree reading floor-divided by `1000`. -/
def get_cpu_temp (p : Option FileRes) : Except Unit ℤ :=
  match p with
  | none => .ok 0
  | some fr =>
    match read_sys_file (some fr) with
    | none => .ok 0
    | some s =>
      if s = "" then .ok 0
      else match pyInt s with
        | some n => .ok (Int.fdiv n 1000)
        | none => .error ()

/-- The progress value carried by an event, if any. -/
def progVal : Ev → Option ℤ
  | .progress v => some v
  | _ => none

/-- Temperatures strictly ascending along the curve. -/
abbrev SortedStrict (c : List Point) : Prop :=
  List.Chain' (fun a b : Point => a.1 < b.1) c

/-- Temperatures weakly ascending along the curve (what `sorted` guarantees). -/
abbrev SortedLoose (c : List Point) : Prop :=
  List.Chain' (fun a b : Point => a.1 ≤ b.1) c

/-- Duty values weakly ascending along the curve. -/
abbrev DutiesMono (c : List Point) : Prop :=
  List.Chain' (fun a b : Point => a.2 ≤ b.2) c

instance : IsTrans Point (fun a b : Point => a.1 ≤ b.1) := ⟨fun _ _ _ => le_trans⟩

/-! ## C9 and C10 -/

/-- C9: on a tick whose freshly loaded mode is `calibration` the daemon only
sleeps one second and continues (no sensor read, no actuator write, state
untouched), and on a tick whose mode is outside
`{auto, max, manual, curve, calibration}` the trace is just the temperature
read and the sleep, so no actuator write occurs. -/
theorem serve_no_actuation_outside_active_modes :
    (∀ cfg st env, cfg.mode = "calibration" → serveTick cfg st env = (st, [Ev.sleep 1])) ∧
    (∀ cfg st env, cfg.mode ∉ (["auto", "max", "manual", "curve", "calibration"] : List String) →
      (serveTick cfg st env).2 = [Ev.readTemp, Ev.sleep 2] ∧
      ((serveTick cfg st env).2.filter isActuatorWrite) = []) := by
  constructor
  · intro cfg st env h
    simp [serveTick, h]
  · intro cfg st env h
    simp only [List.mem_cons, List.not_mem_nil, or_false, not_or] at h
    obtain ⟨h1, h2, h3, h4, h5⟩ := h
    rw [serveTick, if_neg h5, if_neg h4, if_neg h3, if_neg h2, if_neg h1]
    simp [isActuatorWrite]

/-- C9 witness: the calibration tick and an unrecognized-mode tick at concrete
inputs. -/
theorem serve_no_actuation_outside_active_modes_witness :
    serveTick ⟨"calibration", 5, [], "smooth", 0, 0, 30⟩ ⟨[], none⟩ ⟨0, 0, 0, none⟩
        = (⟨[], none⟩, [Ev.sleep 1]) ∧
      (serveTick ⟨"turbo", 5, [], "smooth", 0, 0, 30⟩ ⟨[], none⟩ ⟨0, 0, 0, none⟩).2
        = [Ev.readTemp, Ev.sleep 2] :=
  ⟨serve_no_actuation_outside_active_modes.1 _ _ _ rfl,
    (serve_no_actuation_outside_active_modes.2 _ _ _ (by decide)).1⟩

/-! ## C1 and C2 -/

/-- C1: the governor transition rule of the curve branch. With `maxRpm = 0`
every tick applies immediately (and the write clears the hold). With
`maxRpm > 0` and `diff = |targetDuty/255*maxRpm - currentRpm|`: `diff > 200`
applies and clears the hold; `diff <= 200` with no hold starts one at the
current time and suppresses; `diff <= 200` with a hold older than 60 seconds
applies and clears; otherwise it keeps suppressing. The concrete scenario
(`maxRpm = 6000`, `diff = 50`): the first tick suppresses, a tick 61 seconds
later applies. The curve branch of `serveTick` actuates exactly when the
governor says apply and stores the governor's hold state. -/
theorem governor_transition_rule :
    (∀ (pwm fanR : ℤ) (now : ℚ) (h : Option ℚ), govStep 0 pwm fanR now h = (true, none)) ∧
    (∀ (fm pwm fanR : ℤ) (now : ℚ) (h : Option ℚ), 0 < fm →
      (200 < |(pwm : ℚ) / 255 * (fm : ℚ) - (fanR : ℚ)| →
        govStep fm pwm fanR now h = (true, none)) ∧
      (|(pwm : ℚ) / 255 * (fm : ℚ) - (fanR : ℚ)| ≤ 200 →
        (h = none → govStep fm pwm fanR now h = (false, some now)) ∧
        (∀ t0, h = some t0 → 60 < now - t0 → govStep fm pwm fanR now h = (true, none)) ∧
        (∀ t0, h = some t0 → now - t0 ≤ 60 → govStep fm pwm fanR now h = (false, some t0)))) ∧
    (govStep 6000 255 5950 0 none = (false, some 0) ∧
      govStep 6000 255 5950 61 (some 0) = (true, none)) ∧
    (∀ cfg st env pwm, cfg.mode = "curve" →
      calculate_target_pwm cfg.curve cfg.curve_interpolation
          (histAvg (smootherPush cfg.ma_window st.temp_history env.tempR)) = some pwm →
      (serveTick cfg st env).1.hyst = (govStep cfg.fan_max pwm env.fanR env.now st.hyst).2 ∧
      (((serveTick cfg st env).2.filter isActuatorWrite) ≠ [] ↔
        (govStep cfg.fan_max pwm env.fanR env.now st.hyst).1 = true)) := by
  refine ⟨?_, ?_, ?_, ?_⟩
  · intro pwm fanR now h
    simp [govStep]
  · intro fm pwm fanR now h hfm
    constructor
    · intro hd
      rw [govStep, if_pos hfm, if_neg (not_le.mpr hd)]
    · intro hd
      refine ⟨?_, ?_, ?_⟩
      · intro hn
        subst hn
        rw [govStep, if_pos hfm, if_pos hd]
        simp
      · intro t0 hs ht
        subst hs
        rw [govStep, if_pos hfm, if_pos hd]
        simp [if_pos ht]
      · intro t0 hs ht
        subst hs
        rw [govStep, if_pos hfm, if_pos hd]
        simp [if_neg (not_lt.mpr ht)]
  · constructor
    · rw [govStep, if_pos (by norm_num)]
      norm_num
    · rw [govStep, if_pos (by norm_num)]
      norm_num
  · intro cfg st env pwm hm hc
    rcases hg : govStep cfg.fan_max pwm env.fanR env.now st.hyst with ⟨app, hold⟩
    rw [serveTick, if_neg (by rw [hm]; decide), if_pos hm, hc]
    dsimp only
    rw [hg]
    refine ⟨rfl, ?_⟩
    cases app
    · simp [isActuatorWrite]
    · by_cases h1 : env.enableR = some "1" <;>
        simp [set_fan_pwm, h1, isActuatorWrite, List.filter_append]

/-- C1 witness: the general rule applied at concrete inputs for each branch. -/
theorem governor_transition_rule_witness :
    govStep 1000 255 500 7 none = (true, none) ∧
    govStep 6000 255 5950 7 none = (false, some 7) ∧
    govStep 6000 255 5950 100 (some 7) = (true, none) ∧
    govStep 6000 255 5950 30 (some 7) = (false, some 7) :=
  ⟨(governor_transition_rule.2.1 1000 255 500 7 none (by norm_num)).1 (by norm_num),
    ((governor_transition_rule.2.1 6000 255 5950 7 none (by norm_num)).2 (by norm_num)).1 rfl,
    ((governor_transition_rule.2.1 6000 255 5950 100 (some 7) (by norm_num)).2
      (by norm_num)).2.1 7 rfl (by norm_num),
    ((governor_transition_rule.2.1 6000 255 5950 30 (some 7) (by norm_num)).2
      (by norm_num)).2.2 7 rfl (by norm_num)⟩

/-- C2 counterexample: with a prior three-entry history and the window
re-read as `1`, the very next tick still leaves three entries — the claim
that after any push the history holds at most `maWindow` entries is false.
The prior history can really arise: it is what three ticks with `maWindow`
still `3` produce. -/
theorem smoother_eviction_cex :
    (serveTick ⟨"auto", 1, [], "smooth", 0, 0, 30⟩ ⟨[20, 21, 22], none⟩
        ⟨0, 23, 0, none⟩).1.temp_history = [21, 22, 23] ∧
      ¬(([21, 22, 23] : List ℤ).length ≤ 1) := by
  constructor
  · rw [serveTick, if_neg (by decide), if_neg (by decide), if_neg (by decide),
      if_neg (by decide), if_pos rfl]
    decide
  · decide

/-- C2 as amended: the window length is read from the per-tick config in every
non-calibration mode, but a push evicts at most the single oldest entry: the
new length is `len+1` if `len < maWindow` and stays `len` otherwise, so
shrinking the window from `N` to `M < N` never shrinks an `N`-entry history
below `N` (the excess entries rotate out one-for-one, they are not evicted). -/
theorem smoother_eviction_amended :
    (∀ cfg st env, cfg.mode ≠ "calibration" →
      (serveTick cfg st env).1.temp_history
        = smootherPush cfg.ma_window st.temp_history env.tempR) ∧
    (∀ (w : ℤ) (hist : List ℤ) (t : ℤ),
      ((smootherPush w hist t).length : ℤ)
        = if (hist.length : ℤ) < w then (hist.length : ℤ) + 1 else (hist.length : ℤ)) ∧
    (∀ (w : ℤ) (hist : List ℤ) (t : ℤ), hist ≠ [] → (w : ℤ) ≤ hist.length →
      smootherPush w hist t = hist.tail ++ [t]) := by
  refine ⟨?_, ?_, ?_⟩
  · intro cfg st env h
    rw [serveTick, if_neg h]
    by_cases h1 : cfg.mode = "curve"
    · rw [if_pos h1]
      rcases calculate_target_pwm cfg.curve cfg.curve_interpolation
        (histAvg (smootherPush cfg.ma_window st.temp_history env.tempR)) with _ | pwm
      · rfl
      · rfl
    · rw [if_neg h1]
      by_cases h2 : cfg.mode = "manual"
      · rw [if_pos h2]
        by_cases h3 : 0 ≤ cfg.manual_pwm
        · rw [if_pos h3]
        · rw [if_neg h3]
      · rw [if_neg h2]
        by_cases h4 : cfg.mode = "max"
        · rw [if_pos h4]
        · rw [if_neg h4]
          by_cases h5 : cfg.mode = "auto"
          · rw [if_pos h5]
          · rw [if_neg h5]
  · intro w hist t
    rw [smootherPush]
    have hlen : (hist ++ [t]).length = hist.length + 1 := by simp
    by_cases h : ((hist ++ [t]).length : ℤ) > w
    · rw [if_pos h, List.length_tail, hlen, Nat.add_sub_cancel]
      rw [hlen] at h
      have hnot : ¬((hist.length : ℤ) < w) := by push_cast at h; omega
      rw [if_neg hnot]
    · rw [if_neg h, hlen]
      rw [hlen] at h
      have hlt : (hist.length : ℤ) < w := by push_cast at h; omega
      rw [if_pos hlt]
      push_cast
      ring
  · intro w hist t hne hw
    rw [smootherPush]
    have : ((hist ++ [t]).length : ℤ) > w := by
      simp only [List.length_append, List.length_singleton]
      push_cast
      omega
    rw [if_pos this]
    rcases hist with _ | ⟨a, l⟩
    · exact absurd rfl hne
    · simp

/-- C2 amended witness: a shrink from window 3 to 1 keeps three entries on the
next push, and a non-full window grows by one. -/
theorem smoother_eviction_amended_witness :
    (serveTick ⟨"auto", 1, [], "smooth", 0, 0, 30⟩ ⟨[20, 21, 22], none⟩
        ⟨0, 23, 0, none⟩).1.temp_history
      = smootherPush 1 [20, 21, 22] 23 ∧
    smootherPush 1 [20, 21, 22] 23 = [21, 22, 23] ∧
    ((smootherPush 5 [20, 21] 22).length : ℤ) = 3 := by
  refine ⟨smoother_eviction_amended.1 _ _ _ (by decide), by decide, by decide⟩

/-! ## C7 and C8 -/

lemma calibLoop_eq (w : ℚ) :
    calibLoop w =
      [Ev.sleep (w/10), Ev.progress 10, Ev.sleep (w/10), Ev.progress 20,
       Ev.sleep (w/10), Ev.progress 30, Ev.sleep (w/10), Ev.progress 40,
       Ev.sleep (w/10), Ev.progress 50, Ev.sleep (w/10), Ev.progress 60,
       Ev.sleep (w/10), Ev.progress 70, Ev.sleep (w/10), Ev.progress 80,
       Ev.sleep (w/10), Ev.progress 90, Ev.sleep (w/10), Ev.progress 100] := by
  simp only [calibLoop, List.range_succ, List.range_zero, List.map_append, List.map_cons,
    List.map_nil, List.flatten_append, List.flatten_cons, List.flatten_nil,
    List.nil_append, List.cons_append, List.append_nil]
  norm_num [pyTrunc, Int.floor_eq_iff]

lemma pyOr_ne_empty (r : Option String) (d : String) (hd : d ≠ "") : pyOr r d ≠ "" := by
  rcases r with _ | s
  · exact hd
  · rw [pyOr]
    by_cases h : s = ""
    · rw [if_pos h]; exact hd
    · rw [if_neg h]; exact h

/-- C7: every calibration run sleeps `calibrationWait/10` seconds before each
of exactly ten progress values, which are `10, 20, ..., 100`; after the last
one the fan-speed sensor is read exactly once and that single reading is both
the returned `maxRpm` and the value stored into the config's `fan_max`. -/
theorem calibration_progress_sequence :
    ∀ (w : ℚ) (pe pp : Option String) (fanR : ℤ) (cfg : Config),
    (calibrate w pe pp fanR cfg).1
        = [Ev.readEnable, Ev.readPwm, Ev.writeEnable "0"] ++ calibLoop w
          ++ [Ev.readFan, Ev.saveConfig] ++ calibRestore (pyOr pe "2") (pyOr pp "0") ∧
      (calibrate w pe pp fanR cfg).1.filterMap progVal
        = [10, 20, 30, 40, 50, 60, 70, 80, 90, 100] ∧
      ((calibrate w pe pp fanR cfg).1.filter (fun e => e = Ev.readFan)).length = 1 ∧
      (calibrate w pe pp fanR cfg).2.1 = fanR ∧
      (calibrate w pe pp fanR cfg).2.2.fan_max = fanR := by
  intro w pe pp fanR cfg
  refine ⟨by rw [calibrate]; simp [set_fan_mode], ?_, ?_, rfl, rfl⟩
  · rw [calibrate]
    dsimp only
    rw [calibLoop_eq]
    rw [calibRestore]
    split_ifs <;> simp [set_fan_mode, progVal]
  · rw [calibrate]
    dsimp only
    rw [calibLoop_eq]
    rw [calibRestore]
    split_ifs <;> simp [set_fan_mode]

/-- C8: the measured `maxRpm` is committed to the config (and is the return
value) unconditionally, the `saveConfig` happens strictly before every
restoration write (the only earlier writes are the snapshot reads and the
force-to-max enable write `"0"` — restoration outcomes cannot affect the
persisted result), and the previous duty is re-written only when the
snapshotted enable mode, stripped, was manual (`"1"`). -/
theorem calibration_persist_before_restore :
    ∀ (w : ℚ) (pe pp : Option String) (fanR : ℤ) (cfg : Config),
    ((calibrate w pe pp fanR cfg).2.2.fan_max = fanR) ∧
      ((calibrate w pe pp fanR cfg).2.1 = fanR) ∧
      (∃ pre, (calibrate w pe pp fanR cfg).1
          = pre ++ Ev.saveConfig :: calibRestore (pyOr pe "2") (pyOr pp "0") ∧
        (∀ v, Ev.writePwm v ∉ pre) ∧ (∀ v, Ev.writeEnable v ∈ pre → v = "0")) ∧
      (Ev.writePwm (pyOr pp "0") ∈ (calibrate w pe pp fanR cfg).1 ↔
        pyStrip (pyOr pe "2") = "1") := by
  intro w pe pp fanR cfg
  refine ⟨rfl, rfl, ?_, ?_⟩
  · refine ⟨[Ev.readEnable, Ev.readPwm, Ev.writeEnable "0"] ++ calibLoop w ++ [Ev.readFan],
      ?_, ?_, ?_⟩
    · rw [calibrate]
      simp [set_fan_mode]
    · intro v
      rw [calibLoop_eq]
      simp
    · intro v hv
      rw [calibLoop_eq] at hv
      simp at hv
      exact hv
  · rw [calibrate]
    dsimp only
    rw [calibLoop_eq, calibRestore]
    have hpe : pyOr pe "2" ≠ "" := pyOr_ne_empty pe "2" (by decide)
    have hpp : pyOr pp "0" ≠ "" := pyOr_ne_empty pp "0" (by decide)
    rw [if_neg hpe]
    constructor
    · intro hmem
      by_cases hc : pyOr pp "0" ≠ "" ∧ pyStrip (pyOr pe "2") = "1"
      · exact hc.2
      · rw [if_neg hc] at hmem
        exfalso
        simp [set_fan_mode] at hmem
    · intro hc
      rw [if_pos ⟨hpp, hc⟩]
      simp

/-! ## Curve engine lemmas (for C3, C4, C5, C6) -/

lemma lastPt_cons (p q : Point) (ps : List Point) : lastPt p (q :: ps) = lastPt q ps :=
  List.getLastD_cons p q ps

lemma lastPt_nil (p : Point) : lastPt p [] = p := rfl

lemma lastPt_mem (p : Point) (ps : List Point) : lastPt p ps = p ∨ lastPt p ps ∈ ps := by
  induction ps generalizing p with
  | nil => exact Or.inl rfl
  | cons b l ih =>
    rw [lastPt_cons]
    rcases ih b with h | h
    · right
      rw [h]
      exact List.mem_cons_self b l
    · exact Or.inr (List.mem_cons_of_mem b h)

lemma chain_lt_mem {p : Point} {ps : List Point} (h : SortedStrict (p :: ps)) :
    ∀ q ∈ ps, p.1 < q.1 := by
  induction ps generalizing p with
  | nil => intro q hq; cases hq
  | cons b l ih =>
    rcases List.chain'_cons.mp h with ⟨hpb, hb⟩
    intro q hq
    rcases List.mem_cons.mp hq with rfl | hq
    · exact hpb
    · exact lt_trans hpb (ih hb q hq)

lemma lastPt_mem_of_ne {p : Point} {ps : List Point} (hne : ps ≠ []) : lastPt p ps ∈ ps := by
  rcases ps with _ | ⟨b, l⟩
  · exact absurd rfl hne
  · rw [lastPt_cons]
    rcases lastPt_mem b l with h | h
    · rw [h]
      exact List.mem_cons_self b l
    · exact List.mem_cons_of_mem b h

lemma lt_lastPt {p : Point} {ps : List Point} (h : SortedStrict (p :: ps)) (hne : ps ≠ []) :
    p.1 < (lastPt p ps).1 :=
  chain_lt_mem h _ (lastPt_mem_of_ne hne)

lemma le_lastPt {p : Point} {ps : List Point} (h : SortedStrict (p :: ps)) :
    p.1 ≤ (lastPt p ps).1 := by
  rcases ps with _ | ⟨b, l⟩
  · exact le_refl _
  · exact le_of_lt (lt_lastPt h (List.cons_ne_nil b l))

lemma clamped_low (interp : String) (t : ℚ) (p : Point) (ps : List Point)
    (h : t ≤ (p.1 : ℚ)) : clampedValue interp t p ps = (p.2 : ℚ) := by
  rw [clampedValue, if_pos h]

lemma clamped_nil (interp : String) (t : ℚ) (p : Point) :
    clampedValue interp t p [] = (p.2 : ℚ) := by
  rcases le_total t (p.1 : ℚ) with h | h
  · exact clamped_low interp t p [] h
  · rw [clampedValue, lastPt_nil]
    by_cases h1 : t ≤ (p.1 : ℚ)
    · rw [if_pos h1]
    · rw [if_neg h1, if_pos h]

lemma clamped_high (interp : String) (t : ℚ) (p : Point) (ps : List Point)
    (h1 : ¬ t ≤ (p.1 : ℚ)) (h2 : ((lastPt p ps).1 : ℚ) ≤ t) :
    clampedValue interp t p ps = ((lastPt p ps).2 : ℚ) := by
  rw [clampedValue, if_neg h1, if_pos h2]

lemma clamped_seg (interp : String) (t : ℚ) (p1 p2 : Point) (rest : List Point)
    (h1 : (p1.1 : ℚ) < t) (h2 : t ≤ (p2.1 : ℚ))
    (h3 : ¬ ((lastPt p1 (p2 :: rest)).1 : ℚ) ≤ t) :
    clampedValue interp t p1 (p2 :: rest) = segValue interp t p1 p2 := by
  rw [clampedValue, if_neg (not_le.mpr h1), if_neg h3, scanSeg,
    if_pos ⟨le_of_lt h1, h2⟩, Option.getD_some]

lemma clamped_tail (interp : String) (t : ℚ) (p1 p2 : Point) (rest : List Point)
    (h1 : (p1.1 : ℚ) < t) (hlt : (p2.1 : ℚ) < t) :
    clampedValue interp t p1 (p2 :: rest) = clampedValue interp t p2 rest := by
  rw [clampedValue, clampedValue, lastPt_cons, if_neg (not_le.mpr h1), if_neg (not_le.mpr hlt)]
  by_cases hL : ((lastPt p2 rest).1 : ℚ) ≤ t
  · rw [if_pos hL, if_pos hL]
  · rw [if_neg hL, if_neg hL, scanSeg, if_neg (fun hc => absurd hc.2 (not_le.mpr hlt))]

lemma segValue_discrete (t : ℚ) (p1 p2 : Point) :
    segValue "discrete" t p1 p2 = (p1.2 : ℚ) := by
  rw [segValue, if_pos rfl]

lemma segValue_nondiscrete {interp : String} (hni : interp ≠ "discrete") (t : ℚ)
    {p1 p2 : Point} (hlt : p1.1 < p2.1) :
    segValue interp t p1 p2
      = (p1.2 : ℚ) + (t - (p1.1 : ℚ)) / ((p2.1 : ℚ) - (p1.1 : ℚ)) * ((p2.2 : ℚ) - (p1.2 : ℚ)) := by
  rw [segValue, if_neg hni, if_neg (by omega)]

lemma segValue_right {interp : String} (hni : interp ≠ "discrete")
    {p1 p2 : Point} (hlt : p1.1 < p2.1) :
    segValue interp (p2.1 : ℚ) p1 p2 = (p2.2 : ℚ) := by
  rw [segValue_nondiscrete hni _ hlt]
  have hden : ((p2.1 : ℚ) - (p1.1 : ℚ)) ≠ 0 := by
    have : (p1.1 : ℚ) < (p2.1 : ℚ) := by exact_mod_cast hlt
    linarith
  rw [div_self hden, one_mul]
  ring

lemma segValue_bounds (interp : String) {t : ℚ} {p1 p2 : Point}
    (hlt : p1.1 < p2.1) (hd : p1.2 ≤ p2.2) (h1 : (p1.1 : ℚ) ≤ t) (h2 : t ≤ (p2.1 : ℚ)) :
    (p1.2 : ℚ) ≤ segValue interp t p1 p2 ∧ segValue interp t p1 p2 ≤ (p2.2 : ℚ) := by
  by_cases hi : interp = "discrete"
  · rw [hi, segValue_discrete]
    exact ⟨le_refl _, by exact_mod_cast hd⟩
  · rw [segValue_nondiscrete hi _ hlt]
    have hden : (0 : ℚ) < (p2.1 : ℚ) - (p1.1 : ℚ) := by
      have : (p1.1 : ℚ) < (p2.1 : ℚ) := by exact_mod_cast hlt
      linarith
    have hΔ : (0 : ℚ) ≤ (p2.2 : ℚ) - (p1.2 : ℚ) := by
      have : (p1.2 : ℚ) ≤ (p2.2 : ℚ) := by exact_mod_cast hd
      linarith
    have hr0 : (0 : ℚ) ≤ (t - (p1.1 : ℚ)) / ((p2.1 : ℚ) - (p1.1 : ℚ)) :=
      div_nonneg (by linarith) (le_of_lt hden)
    have hr1 : (t - (p1.1 : ℚ)) / ((p2.1 : ℚ) - (p1.1 : ℚ)) ≤ 1 :=
      (div_le_one hden).mpr (by linarith)
    constructor
    · nlinarith
    · nlinarith

lemma segValue_mono (interp : String) {t1 t2 : ℚ} {p1 p2 : Point}
    (hlt : p1.1 < p2.1) (hd : p1.2 ≤ p2.2) (ht : t1 ≤ t2) :
    segValue interp t1 p1 p2 ≤ segValue interp t2 p1 p2 := by
  by_cases hi : interp = "discrete"
  · rw [hi, segValue_discrete, segValue_discrete]
  · rw [segValue_nondiscrete hi _ hlt, segValue_nondiscrete hi _ hlt]
    have hden : (0 : ℚ) < (p2.1 : ℚ) - (p1.1 : ℚ) := by
      have : (p1.1 : ℚ) < (p2.1 : ℚ) := by exact_mod_cast hlt
      linarith
    have hΔ : (0 : ℚ) ≤ (p2.2 : ℚ) - (p1.2 : ℚ) := by
      have : (p1.2 : ℚ) ≤ (p2.2 : ℚ) := by exact_mod_cast hd
      linarith
    have hr : (t1 - (p1.1 : ℚ)) / ((p2.1 : ℚ) - (p1.1 : ℚ))
        ≤ (t2 - (p1.1 : ℚ)) / ((p2.1 : ℚ) - (p1.1 : ℚ)) := by
      gcongr
    have := mul_le_mul_of_nonneg_right hr hΔ
    linarith

lemma clamped_head_open (interp : String) {t : ℚ} {p1 p2 : Point} {rest : List Point}
    (hs : SortedStrict (p1 :: p2 :: rest)) (h1 : (p1.1 : ℚ) < t) (h2 : t < (p2.1 : ℚ)) :
    clampedValue interp t p1 (p2 :: rest) = segValue interp t p1 p2 := by
  apply clamped_seg interp t p1 p2 rest h1 (le_of_lt h2)
  rw [lastPt_cons]
  have htail : SortedStrict (p2 :: rest) := (List.chain'_cons.mp hs).2
  have hle : (p2.1 : ℚ) ≤ ((lastPt p2 rest).1 : ℚ) := by exact_mod_cast le_lastPt htail
  push_neg
  linarith

lemma clamped_between (interp : String) :
    ∀ (pre : List Point) (p : Point) (ps : List Point) (a b : Point) (suf : List Point),
      p :: ps = pre ++ a :: b :: suf → SortedStrict (p :: ps) →
      ∀ t : ℚ, (a.1 : ℚ) < t → t < (b.1 : ℚ) →
      clampedValue interp t p ps = segValue interp t a b := by
  intro pre
  induction pre with
  | nil =>
    intro p ps a b suf heq hs t h1 h2
    rw [List.nil_append] at heq
    obtain ⟨rfl, rfl⟩ : p = a ∧ ps = b :: suf := by
      injection heq with ha hb
      exact ⟨ha, hb⟩
    exact clamped_head_open interp hs h1 h2
  | cons x pre' ih =>
    intro p ps a b suf heq hs t h1 h2
    rw [List.cons_append] at heq
    obtain ⟨rfl, hps⟩ : p = x ∧ ps = pre' ++ a :: b :: suf := by
      injection heq with ha hb
      exact ⟨ha, hb⟩
    subst hps
    rcases hq : pre' ++ a :: b :: suf with _ | ⟨q, qs⟩
    · exact absurd hq (by simp)
    · rw [hq] at hs
      have hqmem : a = q ∨ a ∈ qs := by
        have ha : a ∈ q :: qs := by
          rw [← hq]
          exact List.mem_append_right _ (List.mem_cons_self a _)
        rcases List.mem_cons.mp ha with h | h
        · exact Or.inl h
        · exact Or.inr h
      have htail : SortedStrict (q :: qs) := (List.chain'_cons.mp hs).2
      have hq1 : (q.1 : ℚ) < t := by
        rcases hqmem with rfl | hm
        · exact h1
        · have : q.1 < a.1 := chain_lt_mem htail a hm
          have hq2 : (q.1 : ℚ) < (a.1 : ℚ) := by exact_mod_cast this
          linarith
      have hp1 : (p.1 : ℚ) < t := by
        have : p.1 < q.1 := (List.chain'_cons.mp hs).1
        have hp2 : (p.1 : ℚ) < (q.1 : ℚ) := by exact_mod_cast this
        linarith
      rw [clamped_tail interp t p q qs hp1 hq1]
      exact ih q qs a b suf hq.symm htail t h1 h2

lemma clamped_knot {interp : String} (hni : interp ≠ "discrete") :
    ∀ (p : Point) (ps : List Point), SortedStrict (p :: ps) →
      ∀ q ∈ p :: ps, clampedValue interp (q.1 : ℚ) p ps = (q.2 : ℚ) := by
  intro p ps
  induction ps generalizing p with
  | nil =>
    intro _ q hq
    rcases List.mem_cons.mp hq with rfl | h
    · exact clamped_low _ _ _ _ (le_refl _)
    · cases h
  | cons p2 rest ih =>
    intro hs q hq
    have hsp : p.1 < p2.1 := (List.chain'_cons.mp hs).1
    have htail : SortedStrict (p2 :: rest) := (List.chain'_cons.mp hs).2
    rcases List.mem_cons.mp hq with rfl | hq2
    · exact clamped_low _ _ _ _ (le_refl _)
    · rcases List.mem_cons.mp hq2 with rfl | hq3
      · by_cases hrest : rest = []
        · subst hrest
          have hL : lastPt p [q] = q := by rw [lastPt_cons, lastPt_nil]
          rw [clamped_high _ _ _ _ (not_le.mpr (by exact_mod_cast hsp)) (by rw [hL]), hL]
        · have hLgt : q.1 < (lastPt q rest).1 := lt_lastPt htail hrest
          have hna : ¬ ((lastPt p (q :: rest)).1 : ℚ) ≤ (q.1 : ℚ) := by
            rw [lastPt_cons]
            push_neg
            exact_mod_cast hLgt
          rw [clamped_seg _ _ _ _ _ (by exact_mod_cast hsp) (le_refl _) hna]
          exact segValue_right hni hsp
      · have hq1 : p2.1 < q.1 := chain_lt_mem htail q hq3
        have ha : (p.1 : ℚ) < (q.1 : ℚ) := by exact_mod_cast lt_trans hsp hq1
        have hb : (p2.1 : ℚ) < (q.1 : ℚ) := by exact_mod_cast hq1
        rw [clamped_tail _ _ _ _ _ ha hb]
        exact ih p2 htail q (List.mem_cons_of_mem _ hq3)

lemma clamped_bounds_mono (interp : String) :
    ∀ (p : Point) (ps : List Point), SortedStrict (p :: ps) → DutiesMono (p :: ps) →
      (∀ t : ℚ, (p.2 : ℚ) ≤ clampedValue interp t p ps ∧
        clampedValue interp t p ps ≤ ((lastPt p ps).2 : ℚ)) ∧
      (∀ t1 t2 : ℚ, t1 ≤ t2 →
        clampedValue interp t1 p ps ≤ clampedValue interp t2 p ps) := by
  intro p ps
  induction ps generalizing p with
  | nil =>
    intro _ _
    constructor
    · intro t
      rw [clamped_nil, lastPt_nil]
      exact ⟨le_refl _, le_refl _⟩
    · intro t1 t2 _
      rw [clamped_nil, clamped_nil]
  | cons p2 rest ih =>
    intro hs hd
    have hsp : p.1 < p2.1 := (List.chain'_cons.mp hs).1
    have htail : SortedStrict (p2 :: rest) := (List.chain'_cons.mp hs).2
    have hdp : p.2 ≤ p2.2 := (List.chain'_cons.mp hd).1
    have hdpq : (p.2 : ℚ) ≤ (p2.2 : ℚ) := by exact_mod_cast hdp
    have hdtail : DutiesMono (p2 :: rest) := (List.chain'_cons.mp hd).2
    obtain ⟨hb', hm'⟩ := ih p2 htail hdtail
    have hp2L : (p2.2 : ℚ) ≤ ((lastPt p2 rest).2 : ℚ) := le_trans (hb' 0).1 (hb' 0).2
    have hLcons : lastPt p (p2 :: rest) = lastPt p2 rest := lastPt_cons p p2 rest
    have hbnd : ∀ t : ℚ, (p.2 : ℚ) ≤ clampedValue interp t p (p2 :: rest) ∧
        clampedValue interp t p (p2 :: rest) ≤ ((lastPt p2 rest).2 : ℚ) := by
      intro t
      by_cases hA : t ≤ (p.1 : ℚ)
      · rw [clamped_low _ _ _ _ hA]
        exact ⟨le_refl _, le_trans hdpq hp2L⟩
      · push_neg at hA
        by_cases hC : (p2.1 : ℚ) < t
        · rw [clamped_tail _ _ _ _ _ hA hC]
          exact ⟨le_trans hdpq (hb' t).1, (hb' t).2⟩
        · push_neg at hC
          by_cases hH : ((lastPt p (p2 :: rest)).1 : ℚ) ≤ t
          · rw [clamped_high _ _ _ _ (not_le.mpr hA) hH, hLcons]
            exact ⟨le_trans hdpq hp2L, le_refl _⟩
          · rw [clamped_seg _ _ _ _ _ hA hC hH]
            obtain ⟨hlo, hhi⟩ := segValue_bounds interp hsp hdp (le_of_lt hA) hC
            exact ⟨hlo, le_trans hhi hp2L⟩
    have hvB : ∀ t : ℚ, (p.1 : ℚ) < t → t ≤ (p2.1 : ℚ) →
        clampedValue interp t p (p2 :: rest) ≤ (p2.2 : ℚ) := by
      intro t hA hC
      by_cases hH : ((lastPt p (p2 :: rest)).1 : ℚ) ≤ t
      · by_cases hrest : rest = []
        · subst hrest
          rw [clamped_high _ _ _ _ (not_le.mpr hA) hH, hLcons, lastPt_nil]
        · exfalso
          have hgt : p2.1 < (lastPt p2 rest).1 := lt_lastPt htail hrest
          rw [hLcons] at hH
          have hle2 : ((lastPt p2 rest).1 : ℚ) ≤ (p2.1 : ℚ) := le_trans hH hC
          have := lt_of_le_of_lt (show ((lastPt p2 rest).1 : ℚ) ≤ (p2.1 : ℚ) from hle2)
            (show ((p2.1 : ℚ)) < ((lastPt p2 rest).1 : ℚ) by exact_mod_cast hgt)
          exact lt_irrefl _ this
      · rw [clamped_seg _ _ _ _ _ hA hC hH]
        exact (segValue_bounds interp hsp hdp (le_of_lt hA) hC).2
    constructor
    · intro t
      rw [hLcons]
      exact hbnd t
    · intro t1 t2 ht
      by_cases hA1 : t1 ≤ (p.1 : ℚ)
      · rw [clamped_low _ _ _ _ hA1]
        exact (hbnd t2).1
      · push_neg at hA1
        have hA2 : (p.1 : ℚ) < t2 := lt_of_lt_of_le hA1 ht
        by_cases hC1 : (p2.1 : ℚ) < t1
        · have hC2 : (p2.1 : ℚ) < t2 := lt_of_lt_of_le hC1 ht
          rw [clamped_tail _ _ _ _ _ hA1 hC1, clamped_tail _ _ _ _ _ hA2 hC2]
          exact hm' t1 t2 ht
        · push_neg at hC1
          have hv1 : clampedValue interp t1 p (p2 :: rest) ≤ (p2.2 : ℚ) := hvB t1 hA1 hC1
          by_cases hC2 : (p2.1 : ℚ) < t2
          · rw [clamped_tail _ _ _ _ _ hA2 hC2]
            exact le_trans hv1 (hb' t2).1
          · push_neg at hC2
            by_cases hH2 : ((lastPt p (p2 :: rest)).1 : ℚ) ≤ t2
            · rw [clamped_high _ _ _ _ (not_le.mpr hA2) hH2, hLcons]
              exact le_trans hv1 hp2L
            · rw [clamped_seg _ _ _ _ _ hA2 hC2 hH2]
              by_cases hH1 : ((lastPt p (p2 :: rest)).1 : ℚ) ≤ t1
              · exact absurd (le_trans hH1 ht) hH2
              · rw [clamped_seg _ _ _ _ _ hA1 hC1 hH1]
                exact segValue_mono interp hsp hdp ht

lemma lastPt_concat {p x : Point} {ps l : List Point} (h : p :: ps = l ++ [x]) :
    lastPt p ps = x := by
  have h1 : lastPt p ps = (p :: ps).getLastD x := (List.getLastD_cons x p ps).symm
  rw [h1, h]
  simp

lemma chain_rel_append {R : Point → Point → Prop} :
    ∀ (pre : List Point) (a b : Point) (suf : List Point),
      List.Chain' R (pre ++ a :: b :: suf) → R a b := by
  intro pre
  induction pre with
  | nil =>
    intro a b suf h
    exact (List.chain'_cons.mp h).1
  | cons x pre' ih =>
    intro a b suf h
    exact ih a b suf (by simpa using h.tail)

lemma exists_adjacent_drop :
    ∀ (l : List Point), ¬ DutiesMono l →
      ∃ pre a b suf, l = pre ++ a :: b :: suf ∧ b.2 < a.2 := by
  intro l
  induction l with
  | nil =>
    intro h
    exact absurd List.chain'_nil h
  | cons x l ih =>
    intro h
    rcases l with _ | ⟨y, l'⟩
    · exact absurd (List.chain'_singleton x) h
    · by_cases hxy : x.2 ≤ y.2
      · have h2 : ¬ DutiesMono (y :: l') := fun hc => h (List.chain'_cons.mpr ⟨hxy, hc⟩)
        obtain ⟨pre, a, b, suf, heq, hlt⟩ := ih h2
        exact ⟨x :: pre, a, b, suf, by rw [List.cons_append, heq], hlt⟩
      · exact ⟨[], x, y, l', rfl, not_le.mp hxy⟩

lemma not_mono_of_drop (interp : String) (p : Point) (ps : List Point)
    (hs : SortedStrict (p :: ps)) (hnd : ¬ DutiesMono (p :: ps)) :
    ∃ t1 t2 : ℚ, t1 ≤ t2 ∧ ∃ d1 d2 : ℤ,
      clampedValue interp t1 p ps = (d1 : ℚ) ∧ clampedValue interp t2 p ps = (d2 : ℚ) ∧
      d2 < d1 := by
  obtain ⟨pre, a, b, suf, heq, hdrop⟩ := exists_adjacent_drop _ hnd
  have hs' : List.Chain' (fun u v : Point => u.1 < v.1) (pre ++ a :: b :: suf) := heq ▸ hs
  have hab : a.1 < b.1 := chain_rel_append pre a b suf hs'
  have habq : (a.1 : ℚ) < (b.1 : ℚ) := by exact_mod_cast hab
  by_cases hi : interp = "discrete"
  · subst hi
    have ht1a : (a.1 : ℚ) < ((a.1 : ℚ) + (b.1 : ℚ)) / 2 := by linarith
    have ht1b : ((a.1 : ℚ) + (b.1 : ℚ)) / 2 < (b.1 : ℚ) := by linarith
    have hv1 : clampedValue "discrete" (((a.1 : ℚ) + (b.1 : ℚ)) / 2) p ps = (a.2 : ℚ) := by
      rw [clamped_between "discrete" pre p ps a b suf heq hs _ ht1a ht1b]
      exact segValue_discrete _ a b
    rcases hsuf2 : suf with _ | ⟨c, suf'⟩
    · have heq2 : p :: ps = (pre ++ [a]) ++ [b] := by
        rw [heq, hsuf2, List.append_cons pre a [b]]
      have hlastb : lastPt p ps = b := lastPt_concat heq2
      have hbps : b ∈ ps := by
        rcases pre with _ | ⟨x, pre'⟩
        · rw [List.nil_append] at heq
          injection heq with h1 h2
          rw [h2, hsuf2]
          exact List.mem_cons_self b []
        · rw [List.cons_append] at heq
          injection heq with h1 h2
          rw [h2]
          exact List.mem_append_right _ (List.mem_cons_of_mem a (List.mem_cons_self b _))
      have hpb : p.1 < b.1 := chain_lt_mem hs b hbps
      refine ⟨((a.1 : ℚ) + (b.1 : ℚ)) / 2, (b.1 : ℚ), le_of_lt ht1b, a.2, b.2, hv1, ?_, hdrop⟩
      rw [clamped_high _ _ _ _ (not_le.mpr (by exact_mod_cast hpb)) (by rw [hlastb]), hlastb]
    · have heq2 : p :: ps = (pre ++ [a]) ++ b :: c :: suf' := by
        rw [heq, hsuf2, List.append_cons pre a (b :: c :: suf')]
      have hbc : b.1 < c.1 := chain_rel_append (pre ++ [a]) b c suf' (heq2 ▸ hs)
      have hbcq : (b.1 : ℚ) < (c.1 : ℚ) := by exact_mod_cast hbc
      have ht2b : (b.1 : ℚ) < ((b.1 : ℚ) + (c.1 : ℚ)) / 2 := by linarith
      have ht2c : ((b.1 : ℚ) + (c.1 : ℚ)) / 2 < (c.1 : ℚ) := by linarith
      have hv2 : clampedValue "discrete" (((b.1 : ℚ) + (c.1 : ℚ)) / 2) p ps = (b.2 : ℚ) := by
        rw [clamped_between "discrete" (pre ++ [a]) p ps b c suf' heq2 hs _ ht2b ht2c]
        exact segValue_discrete _ b c
      exact ⟨((a.1 : ℚ) + (b.1 : ℚ)) / 2, ((b.1 : ℚ) + (c.1 : ℚ)) / 2, by linarith,
        a.2, b.2, hv1, hv2, hdrop⟩
  · have hamem : a ∈ p :: ps := by
      rw [heq]
      exact List.mem_append_right _ (List.mem_cons_self a _)
    have hbmem : b ∈ p :: ps := by
      rw [heq]
      exact List.mem_append_right _ (List.mem_cons_of_mem a (List.mem_cons_self b _))
    exact ⟨(a.1 : ℚ), (b.1 : ℚ), le_of_lt habq, a.2, b.2,
      clamped_knot hi p ps hs a hamem, clamped_knot hi p ps hs b hbmem, hdrop⟩

/-! ## Rounding order lemmas and the sort identity -/

lemma pyRound_floor_bounds (q : ℚ) : ⌊q⌋ ≤ pyRound q ∧ pyRound q ≤ ⌊q⌋ + 1 := by
  rw [pyRound]
  split_ifs <;> omega

lemma pyRound_val_bounds (q : ℚ) :
    q - 1/2 ≤ (pyRound q : ℚ) ∧ (pyRound q : ℚ) ≤ q + 1/2 := by
  have hle := Int.floor_le q
  have hlt := Int.lt_floor_add_one q
  rw [pyRound]
  split_ifs with h1 h2 h3 <;> constructor <;> push_cast <;> linarith

lemma pyRound_mono {q1 q2 : ℚ} (h : q1 ≤ q2) : pyRound q1 ≤ pyRound q2 := by
  have hf : ⌊q1⌋ ≤ ⌊q2⌋ := Int.floor_le_floor h
  rcases lt_or_eq_of_le hf with hlt | heq
  · have hb1 := (pyRound_floor_bounds q1).2
    have hb2 := (pyRound_floor_bounds q2).1
    omega
  · rw [pyRound, pyRound, ← heq]
    have hr : q1 - (⌊q1⌋ : ℚ) ≤ q2 - (⌊q1⌋ : ℚ) := by linarith
    split_ifs <;> first | omega | linarith

lemma pyRound_strict_pwm {m n : ℤ} (h : m < n) :
    pyRound ((m : ℚ) / 100 * 255) < pyRound ((n : ℚ) / 100 * 255) := by
  have hb1 := (pyRound_val_bounds ((m : ℚ) / 100 * 255)).2
  have hb2 := (pyRound_val_bounds ((n : ℚ) / 100 * 255)).1
  have hmn : (m : ℚ) + 1 ≤ (n : ℚ) := by exact_mod_cast h
  have : ((pyRound ((m : ℚ) / 100 * 255)) : ℚ) < ((pyRound ((n : ℚ) / 100 * 255)) : ℚ) := by
    linarith
  exact_mod_cast this

lemma loose_of_strict {c : List Point} (h : SortedStrict c) : SortedLoose c :=
  List.Chain'.imp (fun _ _ hab => le_of_lt hab) h

lemma sortCurve_eq_self {c : List Point} (h : SortedLoose c) : sortCurve c = c :=
  List.Sorted.insertionSort_eq (List.chain'_iff_pairwise.mp h)

/-- C7 witness: the progress/result components at a concrete calibration
run. -/
theorem calibration_progress_sequence_witness :
    (calibrate 10 none none 4500 ⟨"calibration", 5, [], "smooth", 0, 0, 10⟩).1.filterMap progVal
        = [10, 20, 30, 40, 50, 60, 70, 80, 90, 100] ∧
      (calibrate 10 none none 4500 ⟨"calibration", 5, [], "smooth", 0, 0, 10⟩).2.1 = 4500 ∧
      (calibrate 10 none none 4500 ⟨"calibration", 5, [], "smooth", 0, 0, 10⟩).2.2.fan_max
        = 4500 :=
  ⟨(calibration_progress_sequence 10 none none 4500 _).2.1,
    (calibration_progress_sequence 10 none none 4500 _).2.2.2.1,
    (calibration_progress_sequence 10 none none 4500 _).2.2.2.2⟩

/-- C8 witness: with a manual (`"1 "`, stripping to `"1"`) snapshot the
previous duty is re-written, and the persisted `fan_max` is the reading. -/
theorem calibration_persist_before_restore_witness :
    Ev.writePwm (pyOr (some "128") "0")
        ∈ (calibrate 10 (some "1 ") (some "128") 4500
            ⟨"calibration", 5, [], "smooth", 0, 0, 10⟩).1 ∧
      (calibrate 10 (some "1 ") (some "128") 4500
          ⟨"calibration", 5, [], "smooth", 0, 0, 10⟩).2.2.fan_max = 4500 :=
  ⟨(calibration_persist_before_restore 10 (some "1 ") (some "128") 4500 _).2.2.2.mpr
      (by decide),
    (calibration_persist_before_restore 10 (some "1 ") (some "128") 4500 _).1⟩

/-- C10: with the fan-speed path `None`, the file missing, or the read
failing, `get_fan_speed` returns `0` (and similarly an empty read); the same
holds for `get_cpu_temp`, which on a successful numeric read returns the
millidegree value floor-divided by 1000. No case below leaves the
`Except.ok` range. -/
theorem sensor_reads_default_to_zero :
    (get_fan_speed none = .ok 0) ∧
    (get_fan_speed (some .absent) = .ok 0) ∧
    (get_fan_speed (some .unreadable) = .ok 0) ∧
    (get_cpu_temp none = .ok 0) ∧
    (get_cpu_temp (some .absent) = .ok 0) ∧
    (get_cpu_temp (some .unreadable) = .ok 0) ∧
    (∀ s n, pyStrip s ≠ "" → pyInt (pyStrip s) = some n →
      get_fan_speed (some (.content s)) = .ok n) ∧
    (∀ s n, pyStrip s ≠ "" → pyInt (pyStrip s) = some n →
      get_cpu_temp (some (.content s)) = .ok (Int.fdiv n 1000)) := by
  refine ⟨rfl, rfl, rfl, rfl, rfl, rfl, ?_, ?_⟩
  · intro s n h1 h2
    simp [get_fan_speed, read_sys_file, h1, h2]
  · intro s n h1 h2
    simp [get_cpu_temp, read_sys_file, h1, h2]

/-- C10 witness: a concrete numeric reading. -/
theorem sensor_reads_default_to_zero_witness :
    get_cpu_temp (some (.content " 45500\n")) = .ok 45 ∧
      get_fan_speed (some (.content "3200")) = .ok 3200 := by
  constructor
  · have h := sensor_reads_default_to_zero.2.2.2.2.2.2.2 " 45500\n" 45500
      (by decide) (by decide)
    have h45 : Int.fdiv 45500 1000 = 45 := by decide
    rw [h, h45]
  · exact sensor_reads_default_to_zero.2.2.2.2.2.2.1 "3200" 3200 (by decide) (by decide)

/-! ## C3, C4, C5, C6 -/

/-- C3: for the curve `[(30,0),(60,40),(90,85)]` at temperature 75,
`calculate_target_pwm` returns PWM 159 in `smooth` mode
(duty 40 + (75-60)/(90-60)*(85-40) = 62.5, `round(62.5/100*255) = 159`) and
PWM 102 in `discrete` mode (duty 40 of the lower bracketing point). -/
theorem curve_example_evaluations :
    calculate_target_pwm [((30:ℤ),(0:ℤ)),(60,40),(90,85)] "smooth" 75 = some 159 ∧
    calculate_target_pwm [((30:ℤ),(0:ℤ)),(60,40),(90,85)] "discrete" 75 = some 102 := by
  have hs : sortCurve [((30:ℤ),(0:ℤ)),(60,40),(90,85)] = [(30,0),(60,40),(90,85)] := by decide
  constructor
  · rw [calculate_target_pwm, targetPercent, hs]
    simp only [clampedValue, lastPt, scanSeg, segValue, String.reduceEq, if_false]
    norm_num [pyRound, Int.floor_eq_iff]
    rw [Int.fract]
    norm_num [Int.floor_eq_iff]
  · rw [calculate_target_pwm, targetPercent, hs]
    norm_num [clampedValue, lastPt, scanSeg, segValue, pyRound, Int.floor_eq_iff,
      String.reduceEq]

/-- C4 (amended): for every curve with at least two points whose temperatures
are strictly ascending, the temperature-to-PWM function of
`calculate_target_pwm` is monotonically non-decreasing if and only if the
curve's duty values are non-decreasing — in `discrete`, `smooth`, and indeed
any interpolation mode string. With merely weakly ascending temperatures
(duplicates allowed) the equivalence fails, see the counterexample. -/
theorem curve_monotone_iff_duties (curve : List Point) (interp : String)
    (h2 : 2 ≤ curve.length) (hs : SortedStrict curve) :
    (∀ t1 t2 : ℚ, t1 ≤ t2 → pwmAt curve interp t1 ≤ pwmAt curve interp t2) ↔
      DutiesMono curve := by
  rcases curve with _ | ⟨p, ps⟩
  · simp at h2
  have hsort : sortCurve (p :: ps) = p :: ps := sortCurve_eq_self (loose_of_strict hs)
  have hpwm : ∀ t : ℚ, pwmAt (p :: ps) interp t
      = pyRound ((clampedValue interp t p ps) / 100 * 255) := by
    intro t
    rw [pwmAt, calculate_target_pwm, targetPercent, hsort]
    rfl
  constructor
  · intro hmono
    by_contra hnd
    obtain ⟨t1, t2, hle, d1, d2, hv1, hv2, hlt⟩ := not_mono_of_drop interp p ps hs hnd
    have hm := hmono t1 t2 hle
    rw [hpwm t1, hpwm t2, hv1, hv2] at hm
    exact absurd hm (not_le.mpr (pyRound_strict_pwm hlt))
  · intro hd t1 t2 hle
    rw [hpwm t1, hpwm t2]
    apply pyRound_mono
    have hc := (clamped_bounds_mono interp p ps hs hd).2 t1 t2 hle
    linarith

/-- C4 counterexample: the duplicate-temperature curve
`[(30,20),(30,50),(30,20)]` is weakly sorted ascending by temperature and has
two or more points, its duty values are not non-decreasing, yet the resulting
PWM function is constant (hence monotone) in both interpolation modes — so
"monotone iff duties non-decreasing" is false for merely sorted-ascending
curves. -/
theorem curve_monotone_iff_duties_cex :
    2 ≤ ([((30:ℤ),(20:ℤ)), (30,50), (30,20)] : List Point).length ∧
    SortedLoose [((30:ℤ),(20:ℤ)), (30,50), (30,20)] ∧
    ¬ DutiesMono [((30:ℤ),(20:ℤ)), (30,50), (30,20)] ∧
    (∀ t1 t2 : ℚ, t1 ≤ t2 →
      pwmAt [((30:ℤ),(20:ℤ)), (30,50), (30,20)] "discrete" t1
        ≤ pwmAt [((30:ℤ),(20:ℤ)), (30,50), (30,20)] "discrete" t2) ∧
    (∀ t1 t2 : ℚ, t1 ≤ t2 →
      pwmAt [((30:ℤ),(20:ℤ)), (30,50), (30,20)] "smooth" t1
        ≤ pwmAt [((30:ℤ),(20:ℤ)), (30,50), (30,20)] "smooth" t2) := by
  have hconst : ∀ (interp : String) (t : ℚ),
      pwmAt [((30:ℤ),(20:ℤ)), (30,50), (30,20)] interp t = 51 := by
    intro interp t
    have hsort : sortCurve [((30:ℤ),(20:ℤ)), (30,50), (30,20)]
        = [(30,20), (30,50), (30,20)] := by decide
    have hlast : lastPt ((30:ℤ),(20:ℤ)) [((30:ℤ),(50:ℤ)), (30,20)] = (30,20) := by decide
    rw [pwmAt, calculate_target_pwm, targetPercent, hsort]
    have hval : clampedValue interp t ((30:ℤ),(20:ℤ)) [((30:ℤ),(50:ℤ)), (30,20)]
        = ((20:ℤ) : ℚ) := by
      rcases le_or_lt t ((((30:ℤ),(20:ℤ)) : Point).1 : ℚ) with h | h
      · rw [clamped_low _ _ _ _ h]
      · rw [clamped_high _ _ _ _ (not_le.mpr h) (by rw [hlast]; exact le_of_lt h), hlast]
    dsimp only
    rw [hval]
    norm_num [pyRound, Int.floor_eq_iff]
  refine ⟨by decide, by simp [List.chain'_cons, List.chain'_singleton],
    by simp [List.chain'_cons, List.chain'_singleton], ?_, ?_⟩ <;>
    · intro t1 t2 ht
      rw [hconst, hconst]

/-- C4 witness: the amended equivalence applied to the strictly-sorted curve
`[(30,0),(60,40)]`, instantiated at concrete temperatures. -/
theorem curve_monotone_iff_duties_witness :
    pwmAt [((30:ℤ),(0:ℤ)),(60,40)] "smooth" 40 ≤ pwmAt [((30:ℤ),(0:ℤ)),(60,40)] "smooth" 50 :=
  (curve_monotone_iff_duties [((30:ℤ),(0:ℤ)),(60,40)] "smooth" (by decide)
    (by simp [List.chain'_cons, List.chain'_singleton])).mpr
    (by simp [List.chain'_cons, List.chain'_singleton]) 40 50 (by norm_num)

/-- C5 (amended): on any non-empty curve (given via its sorted form
`p :: ps`), a query at or below the first point's temperature returns exactly
the first point's duty, and a query at or above the last point's temperature
returns exactly the last point's duty *provided it is also strictly above the
first point's temperature* — the low clamp is checked first and wins on the
overlap, see the counterexample. Both clamps are independent of how far
outside the range the query lies. -/
theorem boundary_clamp (curve : List Point) (interp : String) (t : ℚ)
    (p : Point) (ps : List Point) (h : sortCurve curve = p :: ps) :
    (t ≤ (p.1 : ℚ) → targetPercent curve interp t = some (p.2 : ℚ)) ∧
    ((p.1 : ℚ) < t → ((lastPt p ps).1 : ℚ) ≤ t →
      targetPercent curve interp t = some ((lastPt p ps).2 : ℚ)) := by
  constructor
  · intro ht
    rw [targetPercent, h]
    dsimp only
    rw [clamped_low _ _ _ _ ht]
  · intro h1 hL
    rw [targetPercent, h]
    dsimp only
    rw [clamped_high _ _ _ _ (not_le.mpr h1) hL]

/-- C5 counterexample: for the (sorted) duplicate-temperature curve
`[(30,50),(30,20)]`, the query 30 is at (hence at-or-above) the last point's
temperature, yet the result is the first point's duty 50, not the last
point's duty 20 — the claim's high-clamp conjunct is false as stated. -/
theorem boundary_clamp_cex :
    sortCurve [((30:ℤ),(50:ℤ)), (30,20)] = [(30,50), (30,20)] ∧
    lastPt ((30:ℤ),(50:ℤ)) [((30:ℤ),(20:ℤ))] = (30,20) ∧
    ((((30:ℤ) : ℤ) : ℚ) ≤ (30 : ℚ)) ∧
    targetPercent [((30:ℤ),(50:ℤ)), (30,20)] "smooth" 30 = some 50 ∧
    ((50 : ℚ) ≠ ((20:ℤ) : ℚ)) := by
  refine ⟨by decide, by decide, by norm_num, ?_, by norm_num⟩
  rw [targetPercent, (show sortCurve [((30:ℤ),(50:ℤ)), (30,20)] = [(30,50), (30,20)] by decide)]
  dsimp only
  rw [clamped_low _ _ _ _ (by norm_num)]
  norm_num

/-- C5 witness: the amended clamps applied to the curve `[(30,0),(60,40)]`,
far below and far above the range. -/
theorem boundary_clamp_witness :
    targetPercent [((30:ℤ),(0:ℤ)),(60,40)] "smooth" (-100) = some 0 ∧
    targetPercent [((30:ℤ),(0:ℤ)),(60,40)] "smooth" 999 = some 40 := by
  have h1 := boundary_clamp [((30:ℤ),(0:ℤ)),(60,40)] "smooth" (-100) (30,0) [(60,40)]
    (by decide)
  have h2 := boundary_clamp [((30:ℤ),(0:ℤ)),(60,40)] "smooth" 999 (30,0) [(60,40)]
    (by decide)
  have hlast : lastPt ((30:ℤ),(0:ℤ)) [((60:ℤ),(40:ℤ))] = (60,40) := by decide
  constructor
  · have := h1.1 (by norm_num)
    simpa using this
  · have := h2.2 (by norm_num) (by rw [hlast]; norm_num)
    rw [hlast] at this
    simpa using this

/-- C6 (amended): for every curve with strictly ascending temperatures,
evaluating `calculate_target_pwm` in `smooth` mode exactly at any breakpoint's
temperature returns exactly that breakpoint's duty converted to PWM. With
duplicate temperatures the property fails (first match wins, and the high
clamp overrides even that), see the counterexample. -/
theorem knot_exactness (curve : List Point) (hs : SortedStrict curve)
    (q : Point) (hq : q ∈ curve) :
    calculate_target_pwm curve "smooth" (q.1 : ℚ)
      = some (pyRound ((q.2 : ℚ) / 100 * 255)) := by
  rcases curve with _ | ⟨p, ps⟩
  · cases hq
  · rw [calculate_target_pwm, targetPercent, sortCurve_eq_self (loose_of_strict hs)]
    dsimp only
    rw [clamped_knot (by decide) p ps hs q hq]
    rfl

/-- C6 counterexample: in the duplicate-temperature curve `[(30,50),(30,20)]`
the breakpoint `(30,20)` evaluates (smooth mode, at its own temperature 30) to
PWM 128 — the first point's duty 50 converted — instead of its own duty's
PWM `round(20/100*255) = 51`. -/
theorem knot_exactness_cex :
    (((30:ℤ),(20:ℤ)) ∈ ([((30:ℤ),(50:ℤ)), (30,20)] : List Point)) ∧
    SortedLoose [((30:ℤ),(50:ℤ)), (30,20)] ∧
    calculate_target_pwm [((30:ℤ),(50:ℤ)), (30,20)] "smooth" (((30:ℤ) : ℤ) : ℚ)
      = some 128 ∧
    pyRound ((((20:ℤ) : ℤ) : ℚ) / 100 * 255) = 51 ∧
    (128 : ℤ) ≠ 51 := by
  refine ⟨by decide, by simp [List.chain'_cons, List.chain'_singleton], ?_, ?_, by decide⟩
  · rw [calculate_target_pwm, targetPercent,
      (show sortCurve [((30:ℤ),(50:ℤ)), (30,20)] = [(30,50), (30,20)] by decide)]
    dsimp only
    rw [clamped_low _ _ _ _ (by norm_num)]
    norm_num [pyRound, Int.floor_eq_iff]
    rw [Int.fract]
    norm_num [Int.floor_eq_iff]
  · norm_num [pyRound, Int.floor_eq_iff]

/-- C6 witness: knot exactness applied to the strictly-sorted curve
`[(30,0),(60,40)]` at the breakpoint `(60,40)`. -/
theorem knot_exactness_witness :
    calculate_target_pwm [((30:ℤ),(0:ℤ)),(60,40)] "smooth" 60 = some 102 := by
  have h := knot_exactness [((30:ℤ),(0:ℤ)),(60,40)]
    (by simp [List.chain'_cons, List.chain'_singleton]) ((60:ℤ),(40:ℤ)) (by decide)
  have h60 : ((((60:ℤ),(40:ℤ)) : Point).1 : ℚ) = 60 := by norm_num
  rw [h60] at h
  rw [h]
  norm_num [pyRound, Int.floor_eq_iff]

end OmenFan
